import Mathlib

/-!
Verification of the archive-inspection core of `ooxml-viewer`
(`src/wasm-core/src/lib.rs`).

The repository's logic is a single pass over an opened zip container:
for each directory record it emits an `ArchiveEntry` (path, is_dir, size,
optional decoded text).  The zip container reader itself (`zip::read::ZipArchive`)
is an external crate, so it is modelled abstractly: an opened archive is the
ordered list of `by_index` results, each either an error string or a record
carrying the stored name, the reader's directory flag, and the result of fully
decompressing the payload (`read_to_end`).  Everything the repository's own
code does with those results is embedded faithfully below.
-/

namespace OoxmlViewer

/-- Model of one successfully resolved zip directory record, as surfaced by
the external reader: `name` is `file.name()`, `is_dir` is `file.is_dir()`,
and `read_result` is the outcome of `file.read_to_end` (the decompressed
payload bytes, each in `0..256`, or a decompression error message). -/
structure ZipFile where
  name : String
  is_dir : Bool
  read_result : Except String (List Nat)

/-- Model of an opened zip container: the ordered list of `by_index` results
for indices `0..len`, each either a directory-record error or a record. -/
structure ZipArchive where
  records : List (Except String ZipFile)

/-- `ArchiveEntry` from the source: one record per zip directory entry. -/
structure ArchiveEntry where
  path : String
  is_dir : Bool
  size : Nat
  content : Option String
deriving DecidableEq

/-- `ArchiveSummary` from the source: the ordered entries list. -/
structure ArchiveSummary where
  entries : List ArchiveEntry
deriving DecidableEq

/-- ASCII lower-casing of one character, as Rust's `to_ascii_lowercase`. -/
def to_ascii_lowercase_char (c : Char) : Char :=
  if 'A' ≤ c ∧ c ≤ 'Z' then Char.ofNat (c.toNat + 32) else c

/-- ASCII lower-casing of a string, as Rust's `str::to_ascii_lowercase`. -/
def to_ascii_lowercase (s : String) : String :=
  ⟨s.data.map to_ascii_lowercase_char⟩

/-- Rust's `s.rsplit(c).next().unwrap()`: the substring after the last
occurrence of `c`, or the whole string when `c` does not occur. -/
def rsplit_first (s : String) (c : Char) : String :=
  ⟨(s.data.reverse.takeWhile (fun x => x ≠ c)).reverse⟩

/-- `is_textual_entry` from the source: the first item of `path.rsplit('.')`
(which is the whole name when there is no dot), ASCII lower-cased, must be
one of `xml`, `rels`, `txt`. -/
def is_textual_entry (path : String) : Bool :=
  let ext := to_ascii_lowercase (rsplit_first path '.')
  ext = "xml" || ext = "rels" || ext = "txt"

/-- Rust's `s.trim_end_matches(c)` for a char pattern: repeatedly removes the
trailing character `c` (all trailing occurrences, not just one). -/
def trim_end_matches (s : String) (c : Char) : String :=
  ⟨(s.data.reverse.dropWhile (fun x => x = c)).reverse⟩

/-- The Unicode replacement character U+FFFD. -/
def replacement_char : Char := Char.ofNat 0xFFFD

/-- Lower bound for the first continuation byte of a multi-byte UTF-8
sequence, keyed by the lead byte (Unicode Table 3-7, as enforced by Rust). -/
def utf8_cont1_lo (b0 : Nat) : Nat :=
  if b0 = 0xE0 then 0xA0 else if b0 = 0xF0 then 0x90 else 0x80

/-- Upper bound for the first continuation byte of a multi-byte UTF-8
sequence, keyed by the lead byte. -/
def utf8_cont1_hi (b0 : Nat) : Nat :=
  if b0 = 0xED then 0x9F else if b0 = 0xF4 then 0x8F else 0xBF

/-- UTF-8 decoding with lossy replacement, as Rust's `String::from_utf8_lossy`:
each maximal ill-formed subsequence becomes one U+FFFD, well-formed sequences
decode to their code point.  The first argument is recursion fuel; every step
consumes at least one byte, so fuel equal to the list length (as supplied by
`utf8_lossy_list`) never runs out. -/
def utf8_lossy_go : Nat → List Nat → List Char
  | _, [] => []
  | 0, _ :: _ => []
  | Nat.succ fuel, b0 :: rest =>
    if b0 < 0x80 then
      Char.ofNat b0 :: utf8_lossy_go fuel rest
    else if 0xC2 ≤ b0 ∧ b0 ≤ 0xDF then
      match rest with
      | [] => [replacement_char]
      | b1 :: rest1 =>
        if 0x80 ≤ b1 ∧ b1 ≤ 0xBF then
          Char.ofNat ((b0 - 0xC0) * 0x40 + (b1 - 0x80)) :: utf8_lossy_go fuel rest1
        else
          replacement_char :: utf8_lossy_go fuel (b1 :: rest1)
    else if 0xE0 ≤ b0 ∧ b0 ≤ 0xEF then
      match rest with
      | [] => [replacement_char]
      | b1 :: rest1 =>
        if utf8_cont1_lo b0 ≤ b1 ∧ b1 ≤ utf8_cont1_hi b0 then
          match rest1 with
          | [] => [replacement_char]
          | b2 :: rest2 =>
            if 0x80 ≤ b2 ∧ b2 ≤ 0xBF then
              Char.ofNat ((b0 - 0xE0) * 0x1000 + (b1 - 0x80) * 0x40 + (b2 - 0x80)) ::
                utf8_lossy_go fuel rest2
            else
              replacement_char :: utf8_lossy_go fuel (b2 :: rest2)
        else
          replacement_char :: utf8_lossy_go fuel (b1 :: rest1)
    else if 0xF0 ≤ b0 ∧ b0 ≤ 0xF4 then
      match rest with
      | [] => [replacement_char]
      | b1 :: rest1 =>
        if utf8_cont1_lo b0 ≤ b1 ∧ b1 ≤ utf8_cont1_hi b0 then
          match rest1 with
          | [] => [replacement_char]
          | b2 :: rest2 =>
            if 0x80 ≤ b2 ∧ b2 ≤ 0xBF then
              match rest2 with
              | [] => [replacement_char]
              | b3 :: rest3 =>
                if 0x80 ≤ b3 ∧ b3 ≤ 0xBF then
                  Char.ofNat ((b0 - 0xF0) * 0x40000 + (b1 - 0x80) * 0x1000 +
                      (b2 - 0x80) * 0x40 + (b3 - 0x80)) ::
                    utf8_lossy_go fuel rest3
                else
                  replacement_char :: utf8_lossy_go fuel (b3 :: rest3)
            else
              replacement_char :: utf8_lossy_go fuel (b2 :: rest2)
        else
          replacement_char :: utf8_lossy_go fuel (b1 :: rest1)
    else
      replacement_char :: utf8_lossy_go fuel rest

/-- Lossy UTF-8 decoding of a byte list. -/
def utf8_lossy_list (l : List Nat) : List Char :=
  utf8_lossy_go l.length l

/-- Rust's `String::from_utf8_lossy(bytes).into_owned()`. -/
def from_utf8_lossy (bytes : List Nat) : String :=
  ⟨utf8_lossy_list bytes⟩

/-- The loop body of `inspect_archive` for one successfully resolved record:
directories yield `path = name.trim_end_matches('/')`, `size = 0`, no content;
files decompress fully (`read_to_end`, failure aborts), record the
decompressed length as `size`, and attach lossily decoded text exactly when
`is_textual_entry` accepts the name. -/
def inspect_record (file : ZipFile) : Except String ArchiveEntry :=
  let name := file.name
  if file.is_dir then
    Except.ok { path := trim_end_matches name '/', is_dir := true, size := 0, content := none }
  else
    match file.read_result with
    | Except.error err => Except.error err
    | Except.ok buffer =>
      let size := buffer.length
      let content :=
        if is_textual_entry name then some (from_utf8_lossy buffer) else none
      Except.ok { path := name, is_dir := false, size := size, content := content }

/-- The `for index in 0..archive.len()` loop of `inspect_archive`: walk the
records in order, aborting with the first error (`by_index` failure or
`read_to_end` failure), otherwise accumulating one entry per record. -/
def inspect_records : List (Except String ZipFile) → Except String (List ArchiveEntry)
  | [] => Except.ok []
  | r :: rs =>
    match r with
    | Except.error err => Except.error err
    | Except.ok file =>
      match inspect_record file with
      | Except.error err => Except.error err
      | Except.ok entry =>
        match inspect_records rs with
        | Except.error err => Except.error err
        | Except.ok entries => Except.ok (entry :: entries)

/-- `inspect_archive` from the source.  Opening the byte buffer
(`ZipArchive::new(cursor).map_err(|err| err.to_string())`) is the external
reader's work, so the function takes its result: an error message when the
buffer is not a valid zip container, otherwise the opened archive. -/
def inspect_archive (opened : Except String ZipArchive) : Except String ArchiveSummary :=
  match opened with
  | Except.error err => Except.error err
  | Except.ok archive =>
    match inspect_records archive.records with
    | Except.error err => Except.error err
    | Except.ok entries => Except.ok { entries := entries }

/-- The full pipeline from bytes, parameterised by the external zip reader's
opening function: `inspect_archive` applied to the opened container. -/
def inspect_pipeline (zip_open : List Nat → Except String ZipArchive)
    (bytes : List Nat) : Except String ArchiveSummary :=
  inspect_archive (zip_open bytes)

/-- A record is fully readable: `by_index` succeeded and, for files,
`read_to_end` succeeded.  This is exactly the condition under which the loop
body does not abort at this record. -/
def record_readable (r : Except String ZipFile) : Bool :=
  match r with
  | Except.error _ => false
  | Except.ok file =>
    file.is_dir ||
      match file.read_result with
      | Except.ok _ => true
      | Except.error _ => false

/-- The entry a fully readable record contributes (arbitrary placeholder
values on unreadable records, which never arise in a successful run). -/
def entry_of_record (r : Except String ZipFile) : ArchiveEntry :=
  match r with
  | Except.error _ => { path := "", is_dir := false, size := 0, content := none }
  | Except.ok file =>
    if file.is_dir then
      { path := trim_end_matches file.name '/', is_dir := true, size := 0, content := none }
    else
      match file.read_result with
      | Except.error _ => { path := file.name, is_dir := false, size := 0, content := none }
      | Except.ok buffer =>
        { path := file.name, is_dir := false, size := buffer.length,
          content := if is_textual_entry file.name then some (from_utf8_lossy buffer) else none }

/-- Modelled from the spec: textual classification as the specification words
it — the substring after the last `.` in the name, with NO extension (no `.`
occurring in the name) meaning not textual, lower-cased, member of
`xml`, `rels`, `txt`.  Kept separate from the source's `is_textual_entry`
for comparison. -/
def spec_textual (name : String) : Bool :=
  name.data.contains '.' &&
    (let ext := to_ascii_lowercase (rsplit_first name '.')
     ext = "xml" || ext = "rels" || ext = "txt")

/-- The payload bytes of the spec's concrete scenario: the UTF-8 bytes of
the string with the w:document and w:t elements wrapping the text Test. -/
def document_xml_bytes : List Nat :=
  [60, 119, 58, 100, 111, 99, 117, 109, 101, 110, 116, 62,
   60, 119, 58, 116, 62,
   84, 101, 115, 116,
   60, 47, 119, 58, 116, 62,
   60, 47, 119, 58, 100, 111, 99, 117, 109, 101, 110, 116, 62]

/-! ### Helper lemmas -/

lemma inspect_record_readable (file : ZipFile)
    (h : record_readable (Except.ok file) = true) :
    inspect_record file = Except.ok (entry_of_record (Except.ok file)) := by
  unfold record_readable at h
  cases hd : file.is_dir with
  | true => simp [inspect_record, entry_of_record, hd]
  | false =>
    cases hr : file.read_result with
    | error e => simp [hd, hr] at h
    | ok buffer => simp [inspect_record, entry_of_record, hd, hr]

lemma inspect_record_ok_inv (file : ZipFile) (entry : ArchiveEntry)
    (h : inspect_record file = Except.ok entry) :
    record_readable (Except.ok file) = true ∧ entry = entry_of_record (Except.ok file) := by
  unfold inspect_record at h
  cases hd : file.is_dir with
  | true =>
    rw [hd] at h
    simp at h
    simp [record_readable, entry_of_record, hd, ← h]
  | false =>
    rw [hd] at h
    cases hr : file.read_result with
    | error e => rw [hr] at h; simp at h
    | ok buffer =>
      rw [hr] at h
      simp at h
      simp [record_readable, entry_of_record, hd, hr, ← h]

lemma inspect_records_eq_map (records : List (Except String ZipFile))
    (h : ∀ r ∈ records, record_readable r = true) :
    inspect_records records = Except.ok (records.map entry_of_record) := by
  induction records with
  | nil => rfl
  | cons r rs ih =>
    have hr := h r (List.mem_cons_self r rs)
    cases r with
    | error e => simp [record_readable] at hr
    | ok file =>
      have hstep := inspect_record_readable file hr
      have hrest := ih (fun x hx => h x (List.mem_cons_of_mem _ hx))
      simp [inspect_records, hstep, hrest]

lemma inspect_records_ok_inv (records : List (Except String ZipFile))
    (entries : List ArchiveEntry)
    (h : inspect_records records = Except.ok entries) :
    entries = records.map entry_of_record ∧ ∀ r ∈ records, record_readable r = true := by
  induction records generalizing entries with
  | nil =>
    simp [inspect_records] at h
    simp [← h]
  | cons r rs ih =>
    cases r with
    | error e => simp [inspect_records] at h
    | ok file =>
      cases hstep : inspect_record file with
      | error e => simp [inspect_records, hstep] at h
      | ok entry =>
        cases hrest : inspect_records rs with
        | error e => simp [inspect_records, hstep, hrest] at h
        | ok es =>
          simp [inspect_records, hstep, hrest] at h
          obtain ⟨hmap, hread⟩ := ih es hrest
          obtain ⟨hok, hentry⟩ := inspect_record_ok_inv file entry hstep
          constructor
          · simp [← h, hmap, hentry]
          · intro x hx
            rcases List.mem_cons.mp hx with hx1 | hx2
            · rw [hx1]; exact hok
            · exact hread x hx2

lemma inspect_archive_ok_inv (records : List (Except String ZipFile))
    (s : ArchiveSummary)
    (h : inspect_archive (Except.ok ⟨records⟩) = Except.ok s) :
    s.entries = records.map entry_of_record ∧ ∀ r ∈ records, record_readable r = true := by
  cases hrec : inspect_records records with
  | error e => simp [inspect_archive, hrec] at h
  | ok entries =>
    simp [inspect_archive, hrec] at h
    obtain ⟨hmap, hread⟩ := inspect_records_ok_inv records entries hrec
    refine ⟨?_, hread⟩
    rw [← h]
    exact hmap

lemma inspect_records_append_readable (pre rest : List (Except String ZipFile))
    (h : ∀ r ∈ pre, record_readable r = true) :
    inspect_records (pre ++ rest) =
      match inspect_records rest with
      | Except.error err => Except.error err
      | Except.ok es => Except.ok (pre.map entry_of_record ++ es) := by
  induction pre with
  | nil =>
    cases hrest : inspect_records rest <;> simp [hrest]
  | cons r rs ih =>
    have hr := h r (List.mem_cons_self r rs)
    cases r with
    | error e => simp [record_readable] at hr
    | ok file =>
      have hstep := inspect_record_readable file hr
      have htail := ih (fun x hx => h x (List.mem_cons_of_mem _ hx))
      cases hrest : inspect_records rest with
      | error e =>
        rw [hrest] at htail
        simp at htail
        simp [inspect_records, hstep, htail]
      | ok es =>
        rw [hrest] at htail
        simp at htail
        simp [inspect_records, hstep, htail]

lemma inspect_archive_get (records : List (Except String ZipFile)) (s : ArchiveSummary)
    (h : inspect_archive (Except.ok ⟨records⟩) = Except.ok s)
    (i : Nat) (hi : i < records.length) :
    ∃ h2 : i < s.entries.length,
      s.entries.get ⟨i, h2⟩ = entry_of_record (records.get ⟨i, hi⟩) := by
  obtain ⟨hmap, _⟩ := inspect_archive_ok_inv records s h
  have hlen : s.entries.length = records.length := by rw [hmap]; simp
  refine ⟨by omega, ?_⟩
  simp only [List.get_eq_getElem, hmap, List.getElem_map]

lemma trim_end_matches_no_trailing (s : String) (c : Char) :
    (trim_end_matches s c).data.getLast? ≠ some c := by
  show ((s.data.reverse.dropWhile (fun x => x = c)).reverse).getLast? ≠ some c
  rw [List.getLast?_reverse]
  cases hh : (s.data.reverse.dropWhile (fun x => x = c)).head? with
  | none => simp
  | some x =>
    have hx := List.head?_dropWhile_not (fun x => x = c) s.data.reverse
    rw [hh] at hx
    simp at hx
    simp [hh, hx]

lemma trim_end_matches_decomp (s : String) (c : Char) :
    ∃ k, s.data = (trim_end_matches s c).data ++ List.replicate k c := by
  show ∃ k, s.data = ((s.data.reverse.dropWhile (fun x => x = c)).reverse) ++ List.replicate k c
  set l := s.data with hl
  refine ⟨(l.reverse.takeWhile (fun x => x = c)).length, ?_⟩
  have h1 := List.takeWhile_append_dropWhile (fun x => decide (x = c)) l.reverse
  have h2 : l.reverse.takeWhile (fun x => x = c) =
      List.replicate (l.reverse.takeWhile (fun x => x = c)).length c := by
    apply List.eq_replicate_of_mem
    intro b hb
    have := List.mem_takeWhile_imp hb
    simpa using this
  have h3 : (l.reverse.takeWhile (fun x => x = c)).reverse =
      List.replicate (l.reverse.takeWhile (fun x => x = c)).length c := by
    rw [h2]
    simp
  calc l = l.reverse.reverse := by simp
    _ = (l.reverse.takeWhile (fun x => x = c) ++ l.reverse.dropWhile (fun x => x = c)).reverse := by
        rw [h1]
    _ = (l.reverse.dropWhile (fun x => x = c)).reverse ++
          (l.reverse.takeWhile (fun x => x = c)).reverse := by
        rw [List.reverse_append]
    _ = _ := by rw [h3]

/-! ### Claim theorems -/

/-- C1: for every buffer that opens as a valid zip container (modelled as an
archive all of whose directory records resolve and decompress), the call
succeeds and the summary holds exactly one `ArchiveEntry` per
central-directory record — the i-th entry being the one its i-th record
contributes, with nothing dropped or synthesized — so the entry count equals
the archive's record count. -/
theorem inspect_archive_one_entry_per_record
    (records : List (Except String ZipFile))
    (h : ∀ r ∈ records, record_readable r = true) :
    inspect_archive (Except.ok ⟨records⟩) =
      Except.ok ⟨records.map entry_of_record⟩ ∧
    ∀ s, inspect_archive (Except.ok ⟨records⟩) = Except.ok s →
      s.entries.length = records.length := by
  have hm := inspect_records_eq_map records h
  constructor
  · simp [inspect_archive, hm]
  · intro s hs
    obtain ⟨hmap, _⟩ := inspect_archive_ok_inv records s hs
    rw [hmap]
    simp

/-- Witness for C1 at a concrete two-record archive. -/
theorem inspect_archive_one_entry_per_record_witness :
    inspect_archive (Except.ok ⟨[Except.ok ⟨"word/", true, Except.ok []⟩,
        Except.ok ⟨"a.txt", false, Except.ok [104, 105]⟩]⟩) =
      Except.ok ⟨[Except.ok (⟨"word/", true, Except.ok []⟩ : ZipFile),
        Except.ok ⟨"a.txt", false, Except.ok [104, 105]⟩].map entry_of_record⟩ ∧
    ∀ s, inspect_archive (Except.ok ⟨[Except.ok ⟨"word/", true, Except.ok []⟩,
        Except.ok ⟨"a.txt", false, Except.ok [104, 105]⟩]⟩) = Except.ok s →
      s.entries.length = ([Except.ok ⟨"word/", true, Except.ok []⟩,
        Except.ok ⟨"a.txt", false, Except.ok [104, 105]⟩] :
          List (Except String ZipFile)).length :=
  inspect_archive_one_entry_per_record
    [Except.ok ⟨"word/", true, Except.ok []⟩,
     Except.ok ⟨"a.txt", false, Except.ok [104, 105]⟩]
    (by decide)

/-- C9: inspection is deterministic — for any fixed zip reader, equal byte
buffers give structurally identical results; the outcome depends only on the
input bytes. -/
theorem inspect_pipeline_deterministic
    (zip_open : List Nat → Except String ZipArchive)
    (bytes1 bytes2 : List Nat) (h : bytes1 = bytes2) :
    inspect_pipeline zip_open bytes1 = inspect_pipeline zip_open bytes2 := by
  rw [h]

/-- Witness for C9 at a concrete reader and buffer. -/
theorem inspect_pipeline_deterministic_witness :
    inspect_pipeline (fun _ => Except.ok ⟨[]⟩) [80, 75] =
      inspect_pipeline (fun _ => Except.ok ⟨[]⟩) [80, 75] :=
  inspect_pipeline_deterministic (fun _ => Except.ok ⟨[]⟩) [80, 75] [80, 75] rfl

/-- C10: a valid zip container with an empty central directory yields a
summary with an empty entries list, not an error. -/
theorem inspect_archive_empty_ok :
    inspect_archive (Except.ok ⟨[]⟩) = Except.ok ⟨[]⟩ := rfl

/-- C2 counterexample: a file entry named just xml has no dot in its name, so
the claim says it is not textual and content must be absent; the code's
classification takes the first item of rsplit — the whole name when no dot
occurs — so the name is accepted and content IS attached. -/
theorem content_iff_claimed_extension_counterexample :
    inspect_archive (Except.ok ⟨[Except.ok ⟨"xml", false, Except.ok [60]⟩]⟩) =
      Except.ok ⟨[⟨"xml", false, 1, some "<"⟩]⟩ ∧
    spec_textual "xml" = false ∧ is_textual_entry "xml" = true :=
  ⟨rfl, by decide, by decide⟩

/-- C2 (amended): for every entry produced by `inspect_archive`, content is
present if and only if the entry is not a directory and the substring of its
name after the last dot — the WHOLE name when no dot occurs — ASCII
lower-cased, is a member of the set with xml, rels and txt. -/
theorem content_iff_code_textual
    (records : List (Except String ZipFile)) (s : ArchiveSummary)
    (h : inspect_archive (Except.ok ⟨records⟩) = Except.ok s)
    (i : Nat) (hi : i < records.length) (file : ZipFile)
    (hfile : records.get ⟨i, hi⟩ = Except.ok file) :
    ∃ h2 : i < s.entries.length,
      (s.entries.get ⟨i, h2⟩).content.isSome =
        (!file.is_dir && is_textual_entry file.name) := by
  obtain ⟨h2, hget⟩ := inspect_archive_get records s h i hi
  refine ⟨h2, ?_⟩
  rw [hget, hfile]
  obtain ⟨_, hread⟩ := inspect_archive_ok_inv records s h
  have hr : record_readable (records.get ⟨i, hi⟩) = true :=
    hread _ (List.get_mem records i hi)
  rw [hfile] at hr
  cases hd : file.is_dir with
  | true => simp [entry_of_record, hd]
  | false =>
    cases hrr : file.read_result with
    | error e => simp [record_readable, hd, hrr] at hr
    | ok buffer =>
      cases ht : is_textual_entry file.name <;>
        simp [entry_of_record, hd, hrr, ht]

/-- Witness for the amended C2 at the concrete one-record archive whose file
is named just xml. -/
theorem content_iff_code_textual_witness :
    ∃ h2 : 0 < (ArchiveSummary.mk [⟨"xml", false, 1, some "<"⟩]).entries.length,
      ((ArchiveSummary.mk [⟨"xml", false, 1, some "<"⟩]).entries.get ⟨0, h2⟩).content.isSome =
        (!(ZipFile.mk "xml" false (Except.ok [60])).is_dir &&
          is_textual_entry (ZipFile.mk "xml" false (Except.ok [60])).name) :=
  content_iff_code_textual [Except.ok ⟨"xml", false, Except.ok [60]⟩]
    (ArchiveSummary.mk [⟨"xml", false, 1, some "<"⟩]) rfl 0 (by decide)
    (ZipFile.mk "xml" false (Except.ok [60])) rfl

/-- C3 counterexample: the directory record named a with two trailing
separators is emitted with path a — the code strips ALL trailing separators
(`trim_end_matches`), not exactly one, so the inner separator does not
survive as the claim requires. -/
theorem dir_path_single_strip_counterexample :
    inspect_archive (Except.ok ⟨[Except.ok ⟨"a//", true, Except.ok []⟩]⟩) =
      Except.ok ⟨[⟨"a", true, 0, none⟩]⟩ ∧
    ("a" : String) ≠ "a/" :=
  ⟨rfl, by decide⟩

/-- C3 (amended): for every directory entry, the emitted path equals the
stored name with ALL trailing separators stripped (the stripping is
repeated, not single): the path never ends in a separator and the stored
name is the path followed by some run of separators. -/
theorem dir_path_strips_all_trailing
    (records : List (Except String ZipFile)) (s : ArchiveSummary)
    (h : inspect_archive (Except.ok ⟨records⟩) = Except.ok s)
    (i : Nat) (hi : i < records.length) (file : ZipFile)
    (hfile : records.get ⟨i, hi⟩ = Except.ok file)
    (hdir : file.is_dir = true) :
    ∃ h2 : i < s.entries.length,
      (s.entries.get ⟨i, h2⟩).path = trim_end_matches file.name '/' ∧
      (s.entries.get ⟨i, h2⟩).path.data.getLast? ≠ some '/' ∧
      ∃ k, file.name.data = (s.entries.get ⟨i, h2⟩).path.data ++ List.replicate k '/' := by
  obtain ⟨h2, hget⟩ := inspect_archive_get records s h i hi
  refine ⟨h2, ?_⟩
  rw [hget, hfile]
  have hpath : entry_of_record (Except.ok file) =
      { path := trim_end_matches file.name '/', is_dir := true, size := 0, content := none } := by
    simp [entry_of_record, hdir]
  rw [hpath]
  exact ⟨rfl, trim_end_matches_no_trailing file.name '/', trim_end_matches_decomp file.name '/'⟩

/-- Witness for the amended C3 at the directory record named a with two
trailing separators. -/
theorem dir_path_strips_all_trailing_witness :
    ∃ h2 : 0 < (ArchiveSummary.mk [⟨"a", true, 0, none⟩]).entries.length,
      ((ArchiveSummary.mk [⟨"a", true, 0, none⟩]).entries.get ⟨0, h2⟩).path =
        trim_end_matches (ZipFile.mk "a//" true (Except.ok [])).name '/' ∧
      ((ArchiveSummary.mk [⟨"a", true, 0, none⟩]).entries.get ⟨0, h2⟩).path.data.getLast? ≠
        some '/' ∧
      ∃ k, (ZipFile.mk "a//" true (Except.ok [])).name.data =
        ((ArchiveSummary.mk [⟨"a", true, 0, none⟩]).entries.get ⟨0, h2⟩).path.data ++
          List.replicate k '/' :=
  dir_path_strips_all_trailing [Except.ok ⟨"a//", true, Except.ok []⟩]
    (ArchiveSummary.mk [⟨"a", true, 0, none⟩]) rfl 0 (by decide)
    (ZipFile.mk "a//" true (Except.ok [])) rfl rfl

/-- C4: inspection is fail-fast.  An invalid container propagates the
reader's message; a directory record that fails to resolve aborts the whole
call with the reader's message even when earlier records are fine; a file
whose payload fails to decompress does the same.  The result type carries
either a full summary or an error, never an incomplete summary. -/
theorem inspect_archive_fail_fast (err : String)
    (pre rest : List (Except String ZipFile)) (file : ZipFile)
    (hpre : ∀ r ∈ pre, record_readable r = true) :
    inspect_archive (Except.error err) = Except.error err ∧
    inspect_archive (Except.ok ⟨pre ++ Except.error err :: rest⟩) = Except.error err ∧
    (file.is_dir = false → file.read_result = Except.error err →
      inspect_archive (Except.ok ⟨pre ++ Except.ok file :: rest⟩) = Except.error err) := by
  refine ⟨rfl, ?_, ?_⟩
  · have happ := inspect_records_append_readable pre (Except.error err :: rest) hpre
    have hcons : inspect_records (Except.error err :: rest) = Except.error err := by
      simp [inspect_records]
    rw [hcons] at happ
    simp at happ
    simp [inspect_archive, happ]
  · intro hdir hread
    have happ := inspect_records_append_readable pre (Except.ok file :: rest) hpre
    have hstep : inspect_record file = Except.error err := by
      simp [inspect_record, hdir, hread]
    have hcons : inspect_records (Except.ok file :: rest) = Except.error err := by
      simp [inspect_records, hstep]
    rw [hcons] at happ
    simp at happ
    simp [inspect_archive, happ]

/-- Witness for C4: one readable record ahead of the failure point. -/
theorem inspect_archive_fail_fast_witness :
    inspect_archive (Except.error "invalid Zip archive") =
      Except.error "invalid Zip archive" ∧
    inspect_archive (Except.ok ⟨[Except.ok ⟨"word/", true, Except.ok []⟩] ++
        Except.error "invalid Zip archive" :: []⟩) =
      Except.error "invalid Zip archive" ∧
    ((ZipFile.mk "bad.bin" false (Except.error "invalid Zip archive")).is_dir = false →
      (ZipFile.mk "bad.bin" false (Except.error "invalid Zip archive")).read_result =
        Except.error "invalid Zip archive" →
      inspect_archive (Except.ok ⟨[Except.ok ⟨"word/", true, Except.ok []⟩] ++
          Except.ok (ZipFile.mk "bad.bin" false (Except.error "invalid Zip archive")) :: []⟩) =
        Except.error "invalid Zip archive") :=
  inspect_archive_fail_fast "invalid Zip archive"
    [Except.ok ⟨"word/", true, Except.ok []⟩] []
    (ZipFile.mk "bad.bin" false (Except.error "invalid Zip archive"))
    (by decide)

/-- C5: every non-directory entry records as `size` the byte length of the
fully decompressed payload that `read_to_end` produced, whether or not
content was attached; it is never read off the content string. -/
theorem file_size_eq_decompressed_length
    (records : List (Except String ZipFile)) (s : ArchiveSummary)
    (h : inspect_archive (Except.ok ⟨records⟩) = Except.ok s)
    (i : Nat) (hi : i < records.length) (file : ZipFile) (buffer : List Nat)
    (hfile : records.get ⟨i, hi⟩ = Except.ok file)
    (hdir : file.is_dir = false)
    (hread : file.read_result = Except.ok buffer) :
    ∃ h2 : i < s.entries.length,
      (s.entries.get ⟨i, h2⟩).is_dir = false ∧
      (s.entries.get ⟨i, h2⟩).size = buffer.length := by
  obtain ⟨h2, hget⟩ := inspect_archive_get records s h i hi
  refine ⟨h2, ?_⟩
  rw [hget, hfile]
  simp [entry_of_record, hdir, hread]

/-- Witness for C5: a png file entry — content stays absent, size is the
exact decompressed length. -/
theorem file_size_eq_decompressed_length_witness :
    ∃ h2 : 0 < (ArchiveSummary.mk
        [⟨"image.png", false, 4, none⟩]).entries.length,
      ((ArchiveSummary.mk [⟨"image.png", false, 4, none⟩]).entries.get
        ⟨0, h2⟩).is_dir = false ∧
      ((ArchiveSummary.mk [⟨"image.png", false, 4, none⟩]).entries.get
        ⟨0, h2⟩).size = ([137, 80, 78, 71] : List Nat).length :=
  file_size_eq_decompressed_length
    [Except.ok ⟨"image.png", false, Except.ok [137, 80, 78, 71]⟩]
    (ArchiveSummary.mk [⟨"image.png", false, 4, none⟩]) rfl 0 (by decide)
    (ZipFile.mk "image.png" false (Except.ok [137, 80, 78, 71]))
    [137, 80, 78, 71] rfl rfl rfl

/-- C6: every record the reader marks as a directory is emitted with
`is_dir` true, size zero, no content, and a path with no trailing separator
left after normalization. -/
theorem dir_entry_shape
    (records : List (Except String ZipFile)) (s : ArchiveSummary)
    (h : inspect_archive (Except.ok ⟨records⟩) = Except.ok s)
    (i : Nat) (hi : i < records.length) (file : ZipFile)
    (hfile : records.get ⟨i, hi⟩ = Except.ok file)
    (hdir : file.is_dir = true) :
    ∃ h2 : i < s.entries.length,
      (s.entries.get ⟨i, h2⟩).is_dir = true ∧
      (s.entries.get ⟨i, h2⟩).size = 0 ∧
      (s.entries.get ⟨i, h2⟩).content = none ∧
      (s.entries.get ⟨i, h2⟩).path.data.getLast? ≠ some '/' := by
  obtain ⟨h2, hget⟩ := inspect_archive_get records s h i hi
  refine ⟨h2, ?_⟩
  rw [hget, hfile]
  have hpath : entry_of_record (Except.ok file) =
      { path := trim_end_matches file.name '/', is_dir := true, size := 0, content := none } := by
    simp [entry_of_record, hdir]
  rw [hpath]
  exact ⟨rfl, rfl, rfl, trim_end_matches_no_trailing file.name '/'⟩

/-- Witness for C6 at the directory record named word with one trailing
separator. -/
theorem dir_entry_shape_witness :
    ∃ h2 : 0 < (ArchiveSummary.mk [⟨"word", true, 0, none⟩]).entries.length,
      ((ArchiveSummary.mk [⟨"word", true, 0, none⟩]).entries.get ⟨0, h2⟩).is_dir = true ∧
      ((ArchiveSummary.mk [⟨"word", true, 0, none⟩]).entries.get ⟨0, h2⟩).size = 0 ∧
      ((ArchiveSummary.mk [⟨"word", true, 0, none⟩]).entries.get ⟨0, h2⟩).content = none ∧
      ((ArchiveSummary.mk [⟨"word", true, 0, none⟩]).entries.get
        ⟨0, h2⟩).path.data.getLast? ≠ some '/' :=
  dir_entry_shape [Except.ok ⟨"word/", true, Except.ok []⟩]
    (ArchiveSummary.mk [⟨"word", true, 0, none⟩]) rfl 0 (by decide)
    (ZipFile.mk "word/" true (Except.ok [])) rfl rfl

/-- C7: lossy text decoding never fails the call.  Whatever bytes a textual
file entry decompresses to — valid UTF-8 or not — inspection still succeeds
(success depends only on the records being readable) and the entry's content
is attached as the total lossy decoding of those bytes, with ill-formed
sequences replaced by U+FFFD. -/
theorem textual_content_attached_lossy
    (records : List (Except String ZipFile))
    (h : ∀ r ∈ records, record_readable r = true) :
    (∃ s, inspect_archive (Except.ok ⟨records⟩) = Except.ok s) ∧
    ∀ s, inspect_archive (Except.ok ⟨records⟩) = Except.ok s →
      ∀ i (hi : i < records.length) (file : ZipFile) (buffer : List Nat),
        records.get ⟨i, hi⟩ = Except.ok file → file.is_dir = false →
        file.read_result = Except.ok buffer → is_textual_entry file.name = true →
        ∃ h2 : i < s.entries.length,
          (s.entries.get ⟨i, h2⟩).content = some (from_utf8_lossy buffer) := by
  have hm := inspect_records_eq_map records h
  constructor
  · exact ⟨⟨records.map entry_of_record⟩, by simp [inspect_archive, hm]⟩
  · intro s hs i hi file buffer hfile hdir hread htext
    obtain ⟨h2, hget⟩ := inspect_archive_get records s hs i hi
    refine ⟨h2, ?_⟩
    rw [hget, hfile]
    simp [entry_of_record, hdir, hread, htext]

/-- Witness for C7: a xml-named entry whose payload starts with an invalid
byte still gets content and a successful inspection. -/
theorem textual_content_attached_lossy_witness :
    (∃ s, inspect_archive (Except.ok ⟨[Except.ok ⟨"bad.xml", false,
        Except.ok [255, 60]⟩]⟩) = Except.ok s) ∧
    ∀ s, inspect_archive (Except.ok ⟨[Except.ok ⟨"bad.xml", false,
        Except.ok [255, 60]⟩]⟩) = Except.ok s →
      ∀ i (hi : i < ([Except.ok ⟨"bad.xml", false, Except.ok [255, 60]⟩] :
          List (Except String ZipFile)).length) (file : ZipFile) (buffer : List Nat),
        ([Except.ok ⟨"bad.xml", false, Except.ok [255, 60]⟩] :
          List (Except String ZipFile)).get ⟨i, hi⟩ = Except.ok file →
        file.is_dir = false →
        file.read_result = Except.ok buffer → is_textual_entry file.name = true →
        ∃ h2 : i < s.entries.length,
          (s.entries.get ⟨i, h2⟩).content = some (from_utf8_lossy buffer) :=
  textual_content_attached_lossy
    [Except.ok ⟨"bad.xml", false, Except.ok [255, 60]⟩] (by decide)

/-- C8 counterexample: in the spec's concrete scenario the payload of the
document entry is 40 bytes long, not 41 — the summary records size 40, so
the claimed size of 41 is off by one. -/
theorem concrete_scenario_counterexample :
    inspect_archive (Except.ok ⟨[
        Except.ok ⟨"word/", true, Except.ok []⟩,
        Except.ok ⟨"word/document.xml", false, Except.ok document_xml_bytes⟩]⟩) =
      Except.ok ⟨[⟨"word", true, 0, none⟩,
        ⟨"word/document.xml", false, 40,
          some "<w:document><w:t>Test</w:t></w:document>"⟩]⟩ ∧
    document_xml_bytes.length = 40 ∧ (40 : Nat) ≠ 41 :=
  ⟨rfl, rfl, by decide⟩

/-- C8 (amended): the two-entry scenario holds with size 40 — the exact
byte length of the document payload — and content equal to that 40-byte
string; all other claimed fields are as stated. -/
theorem concrete_scenario_corrected :
    inspect_archive (Except.ok ⟨[
        Except.ok ⟨"word/", true, Except.ok []⟩,
        Except.ok ⟨"word/document.xml", false, Except.ok document_xml_bytes⟩]⟩) =
      Except.ok ⟨[⟨"word", true, 0, none⟩,
        ⟨"word/document.xml", false, 40,
          some "<w:document><w:t>Test</w:t></w:document>"⟩]⟩ ∧
    ("<w:document><w:t>Test</w:t></w:document>" : String).data.length = 40 :=
  ⟨rfl, by decide⟩

end OoxmlViewer
